import Mathlib

/-!
Verification of the Digital Asset Management backend core: the asset
lifecycle orchestrator (upload, retrieval URLs, metadata update, delete,
share, public shared fetch), the storage adapter (key generation, signed
URLs, deletion, MIME classification) and the webhook dispatcher retry
loop. All definitions below are shallow embeddings of the TypeScript
sources (assets.service.ts second revision, assets.controller.ts,
s3.service.ts, webhook.service.ts, logger.service.ts). Collaborator
failures (object store, metadata store) are modelled as boolean outcome
parameters; randomness (uuidv4) is modelled as an explicit supply of
uuid strings. Database-managed timestamp columns (createdAt, updatedAt)
are not modelled: no claim refers to them.
-/

/-- Mirror of Express.Multer.File: the fields read by the backend. -/
structure MFile where
  originalname : String
  mimetype : String
  size : Nat
  buffer : List Nat
deriving DecidableEq, Repr

/-- Mirror of the Asset entity (asset.entity.ts), without the
database-managed timestamp columns and the joined uploader relation.
Nullable columns (tags, description, sharedUrl) are Options. -/
structure Asset where
  id : String
  filename : String
  s3Key : String
  bucket : String
  size : Nat
  mimeType : String
  assetType : String
  tags : Option String
  description : Option String
  uploaderId : String
  isShared : Bool
  sharedUrl : Option String
deriving DecidableEq, Repr

/-- The NestJS exceptions thrown by the embedded code, with their
messages. notFound = NotFoundException, forbidden = ForbiddenException,
internalServerError = InternalServerErrorException (the StorageFailure
result kind of the specification). -/
inductive AppError where
  | notFound (message : String)
  | forbidden (message : String)
  | internalServerError (message : String)
deriving DecidableEq, Repr

/-- One activity-log document (logger.service.ts, method log), with the
fields the asset flows populate. -/
structure LogEntry where
  activityType : String
  userId : String
  userName : String
  assetId : Option String
  assetFilename : Option String
  errorMessage : Option String
  duration : Option Nat
deriving DecidableEq, Repr

/-- logger.service.ts logView: records a view activity. -/
def logViewEntry (userId userName assetId filename : String) : LogEntry :=
  { activityType := "view", userId := userId, userName := userName,
    assetId := some assetId, assetFilename := some filename,
    errorMessage := none, duration := none }

/-- Configuration of S3Service as fixed by its constructor: backend
selection, bucket name, base URL for local mode, region, and the AWS
presigner (an abstract function of bucket, key and expiry, since the
SDK call is external to the repository). -/
structure S3Config where
  useLocalStorage : Bool
  bucketName : String
  baseUrl : String
  region : String
  presign : String → String → Nat → String

/-- Char-list test that the first list is an initial segment of the
second (JavaScript String.startsWith, executable in the kernel). -/
def charsStarts : List Char → List Char → Bool
  | [], _ => true
  | _ :: _, [] => false
  | a :: as, b :: bs => a == b && charsStarts as bs

/-- Char-list test that the first list occurs contiguously inside the
second (JavaScript String.includes). -/
def charsInfix (sub : List Char) : List Char → Bool
  | [] => sub.isEmpty
  | x :: xs => charsStarts sub (x :: xs) || charsInfix sub xs

/-- JavaScript String.includes, used by detectAssetType. -/
def strIncludes (s sub : String) : Bool :=
  charsInfix sub.data s.data

/-- s3.service.ts detectAssetType. -/
def detectAssetType (mimeType : String) : String :=
  if charsStarts "image/".data mimeType.data then "image"
  else if charsStarts "video/".data mimeType.data then "video"
  else if charsStarts "audio/".data mimeType.data then "audio"
  else if strIncludes mimeType "pdf" || strIncludes mimeType "document"
       || strIncludes mimeType "msword" || strIncludes mimeType "text" then "document"
  else "other"

/-- The sanitizer in s3.service.ts uploadFile: replace every character
outside a-zA-Z0-9.- with an underscore. -/
def sanitizeChars (l : List Char) : List Char :=
  l.map fun c => if c.isAlphanum || c = '.' || c = '-' then c else '_'

/-- JavaScript String.split on a single character, on char lists; the
result is always a nonempty list of separator-free components. -/
def splitOnChar (c : Char) : List Char → List (List Char)
  | [] => [[]]
  | x :: xs =>
    match splitOnChar c xs with
    | [] => [[]]
    | h :: t => if x = c then [] :: h :: t else (x :: h) :: t

/-- file.originalname.split(".").pop(): the last dot-component. -/
def fileExtChars (name : List Char) : List Char :=
  (splitOnChar '.' name).getLastD []

/-- The storage key built by s3.service.ts uploadFile:
userId/sanitized-uuid.ext, on char lists. -/
def uploadKeyChars (userId name uuid : List Char) : List Char :=
  userId ++ '/' :: (sanitizeChars name ++ '-' :: (uuid ++ '.' :: fileExtChars name))

/-- The storage key of an upload, as a string. -/
def uploadKey (userId name uuid : String) : String :=
  ⟨uploadKeyChars userId.data name.data uuid.data⟩

/-- s3.service.ts getSignedUrl(key, expiresIn = 3600): local mode
returns baseUrl/uploads/key, cloud mode calls the presigner with the
bucket, the key and the expiry. The TypeScript signature has no further
parameter: a download-filename argument supplied at a call site binds
to nothing and is dropped. -/
def getSignedUrl (svc : S3Config) (key : String) (expiresIn : Nat) : String :=
  if svc.useLocalStorage then svc.baseUrl ++ "/uploads/" ++ key
  else svc.presign svc.bucketName key expiresIn

/-- s3.service.ts makePublic: local mode returns the public uploads
URL, cloud mode sets a public-read ACL and returns the stable bucket
URL. -/
def makePublicUrl (svc : S3Config) (key : String) : String :=
  if svc.useLocalStorage then svc.baseUrl ++ "/uploads/" ++ key
  else "https://" ++ svc.bucketName ++ ".s3." ++ svc.region ++ ".amazonaws.com/" ++ key

/-- The metadata table plus the object-store contents. -/
structure StoreState where
  blobs : List String
  rows : List Asset
deriving DecidableEq, Repr

/-- assets.service.ts getAssetById: findOne by primary key, throwing
NotFoundException when no row matches. -/
def getAssetById (db : List Asset) (assetId : String) : Except AppError Asset :=
  match db.find? (fun a => a.id == assetId) with
  | some a => Except.ok a
  | none => Except.error (AppError.notFound "Asset not found")

/-- assets.service.ts getSharedAssets: rows with isShared true, with an
optional assetType filter. The createdAt ordering is not modelled. -/
def getSharedAssets (db : List Asset) (assetType : Option String) : List Asset :=
  db.filter fun a =>
    a.isShared && (match assetType with
                   | some t => a.assetType == t
                   | none => true)

/-- repository.save of an existing row: replace the row with the same
primary key. -/
def saveRow (db : List Asset) (a : Asset) : List Asset :=
  db.map fun b => if b.id == a.id then a else b

/-- assets.service.ts getDownloadUrl: fetch the asset, call
getSignedUrl(s3Key, 3600, filename) and record a view activity. The
third argument of that call binds to no parameter of the adapter (its
TypeScript signature is getSignedUrl(key, expiresIn)), so it is
dropped. No authorization check is performed here. -/
def serviceGetDownloadUrl (svc : S3Config) (db : List Asset)
    (assetId userId userName : String) : Except AppError (String × LogEntry) :=
  match getAssetById db assetId with
  | Except.error e => Except.error e
  | Except.ok asset =>
    Except.ok (getSignedUrl svc asset.s3Key 3600,
               logViewEntry userId userName asset.id asset.filename)

/-- assets.service.ts getViewUrl: fetch the asset, call
getSignedUrl(s3Key, 3600) and record a view activity. No authorization
check is performed here. -/
def serviceGetViewUrl (svc : S3Config) (db : List Asset)
    (assetId userId userName : String) : Except AppError (String × LogEntry) :=
  match getAssetById db assetId with
  | Except.error e => Except.error e
  | Except.ok asset =>
    Except.ok (getSignedUrl svc asset.s3Key 3600,
               logViewEntry userId userName asset.id asset.filename)

/-- assets.controller.ts GET :id/download with its guards: the Roles
decorator admits user, admin and viewer; for a viewer the asset must
already be shared; then the service method runs. -/
def controllerGetDownloadUrl (svc : S3Config) (db : List Asset)
    (assetId userId email role : String) : Except AppError (String × LogEntry) :=
  if role != "user" && role != "admin" && role != "viewer" then
    Except.error (AppError.forbidden "Forbidden resource")
  else if role == "viewer" then
    match getAssetById db assetId with
    | Except.error e => Except.error e
    | Except.ok asset =>
      if asset.isShared = false then
        Except.error (AppError.forbidden "You can only download shared assets")
      else serviceGetDownloadUrl svc db assetId userId email
  else serviceGetDownloadUrl svc db assetId userId email

/-- The update payload: none stands for a field absent from the
request body (undefined), some for a supplied value. -/
structure UpdatePayload where
  tags : Option String
  description : Option String
deriving DecidableEq, Repr

/-- assets.service.ts updateAsset: fetch, owner check (no role is even
passed in), apply exactly the supplied fields among tags and
description, save. -/
def updateAsset (db : List Asset) (assetId userId userName : String)
    (updates : UpdatePayload) : List Asset × Except AppError Asset :=
  match getAssetById db assetId with
  | Except.error e => (db, Except.error e)
  | Except.ok asset =>
    if asset.uploaderId != userId then
      (db, Except.error (AppError.forbidden
        "You do not have permission to update this asset"))
    else
      let asset2 : Asset :=
        { asset with
          tags := match updates.tags with
                  | some t => some t
                  | none => asset.tags,
          description := match updates.description with
                         | some d => some d
                         | none => asset.description }
      (saveRow db asset2, Except.ok asset2)

/-- assets.service.ts shareAsset: fetch, owner check, make the blob
public (aclOk models the outcome of the external ACL call), then save
isShared true together with the public URL. -/
def shareAsset (svc : S3Config) (db : List Asset)
    (assetId userId userName : String) (aclOk : Bool) :
    List Asset × Except AppError Asset :=
  match getAssetById db assetId with
  | Except.error e => (db, Except.error e)
  | Except.ok asset =>
    if asset.uploaderId != userId then
      (db, Except.error (AppError.forbidden
        "You do not have permission to share this asset"))
    else if aclOk = false then
      (db, Except.error (AppError.internalServerError "Failed to make file public"))
    else
      let asset2 : Asset :=
        { asset with isShared := true, sharedUrl := some (makePublicUrl svc asset.s3Key) }
      (saveRow db asset2, Except.ok asset2)

/-- assets.service.ts deleteAsset: fetch, ownership check with admin
override, delete the blob first (blobOk models the outcome of the
object-store delete, which throws InternalServerErrorException on
failure), and only then remove the metadata row. The catch block logs
a failed_delete activity and rethrows. -/
def deleteAsset (db : List Asset) (blobs : List String)
    (assetId userId userName : String) (userRole : Option String)
    (blobOk : Bool) : List Asset × List String × Except AppError Unit :=
  match getAssetById db assetId with
  | Except.error e => (db, blobs, Except.error e)
  | Except.ok asset =>
    if asset.uploaderId != userId && userRole != some "admin" then
      (db, blobs, Except.error (AppError.forbidden
        "You do not have permission to delete this asset"))
    else if blobOk = false then
      (db, blobs, Except.error (AppError.internalServerError "Failed to delete file"))
    else
      (db.filter (fun b => b.id != asset.id), blobs.erase asset.s3Key, Except.ok ())

/-- assets.service.ts getSharedAsset (the public shared fetch): no
identity is taken; a missing row raises NotFoundException with the
message Asset not found, a present but unshared row raises
NotFoundException with the message Asset is not shared, and a shared
row is returned together with a signed URL. -/
def getSharedAsset (svc : S3Config) (db : List Asset) (assetId : String) :
    Except AppError (Asset × String) :=
  match getAssetById db assetId with
  | Except.error e => Except.error e
  | Except.ok asset =>
    if asset.isShared = false then
      Except.error (AppError.notFound "Asset is not shared")
    else
      Except.ok (asset, getSignedUrl svc asset.s3Key 3600)

deriving instance DecidableEq for Except

/-- Result of one uploadAsset call: the state after the call, the
value or error surfaced to the caller, and the list of keys for which
a compensating object-store delete was issued during the call (the
catch block of the source contains no deleteFile call, so this list is
built exactly from the deleteFile calls the source makes: none). -/
structure UploadOutcome where
  state : StoreState
  result : Except AppError Asset
  blobDeletes : List String
deriving DecidableEq, Repr

/-- assets.service.ts uploadAsset: push the blob (s3Ok models the
object-store outcome; on failure uploadFile throws before any blob is
written and the catch block wraps the message), classify the MIME
type, insert the metadata row with isShared false (dbOk models the
save outcome; on failure the catch block logs, wraps the message given
by dbErr and rethrows, without deleting the written blob). -/
def uploadAsset (svc : S3Config) (uuid : String) (file : MFile)
    (userId userName : String) (tags description : Option String)
    (newId : String) (s3Ok dbOk : Bool) (dbErr : String)
    (st : StoreState) : UploadOutcome :=
  if s3Ok = false then
    { state := st,
      result := Except.error (AppError.internalServerError
        "Failed to upload file: Failed to upload file"),
      blobDeletes := [] }
  else
    let key := uploadKey userId file.originalname uuid
    let st1 : StoreState := { st with blobs := key :: st.blobs }
    let asset : Asset :=
      { id := newId, filename := file.originalname, s3Key := key,
        bucket := if svc.useLocalStorage then "local-storage" else svc.bucketName,
        size := file.size, mimeType := file.mimetype,
        assetType := detectAssetType file.mimetype,
        tags := tags, description := description,
        uploaderId := userId, isShared := false, sharedUrl := none }
    if dbOk = false then
      { state := st1,
        result := Except.error (AppError.internalServerError
          ("Failed to upload file: " ++ dbErr)),
        blobDeletes := [] }
    else
      { state := { st1 with rows := asset :: st1.rows },
        result := Except.ok asset,
        blobDeletes := [] }

/-- Observable outcome of one webhook.service.ts sendWithRetry call
for a single destination: the sleep durations performed between
attempts (milliseconds, in order), whether a 2xx response ended the
loop, and how many POST attempts were made. -/
structure RetryResult where
  delays : List Nat
  delivered : Bool
  attempts : Nat
deriving DecidableEq, Repr

/-- webhook.service.ts sendWithRetry, from a given attempt counter.
outcomes gives the result of the POST of each attempt number: true for
a 2xx response, false for any failure (axios rejects non-2xx responses,
timeouts and network errors alike, all taking the catch path). On a
2xx the function returns at once; on the failure of attempt
maxRetries - 1 it logs and returns; otherwise it sleeps
2 ^ attempt * 1000 milliseconds and retries. -/
def sendWithRetryFrom (outcomes : Nat → Bool) (maxRetries : Nat)
    (attempt : Nat) : RetryResult :=
  if attempt < maxRetries then
    if outcomes attempt then
      { delays := [], delivered := true, attempts := 1 }
    else if attempt = maxRetries - 1 then
      { delays := [], delivered := false, attempts := 1 }
    else
      let r := sendWithRetryFrom outcomes maxRetries (attempt + 1)
      { delays := 2 ^ attempt * 1000 :: r.delays,
        delivered := r.delivered, attempts := r.attempts + 1 }
  else
    { delays := [], delivered := false, attempts := 0 }
termination_by maxRetries - attempt

/-- webhook.service.ts sendWithRetry with its default bound of 5
attempts, starting at attempt 0. -/
def sendWithRetry (outcomes : Nat → Bool) : RetryResult :=
  sendWithRetryFrom outcomes 5 0

/-- The mutating orchestrator operations, with the oracle data each
call consumes: a fresh uuid and outcome booleans for the external
stores. -/
inductive Op where
  | upload (uuid : String) (file : MFile) (userId userName : String)
      (tags description : Option String) (newId : String)
      (s3Ok dbOk : Bool) (dbErr : String)
  | update (assetId userId userName : String) (updates : UpdatePayload)
  | share (assetId userId userName : String) (aclOk : Bool)
  | delete (assetId userId userName : String) (userRole : Option String)
      (blobOk : Bool)
deriving DecidableEq, Repr

/-- Effect of one orchestrator operation on the stores. -/
def stepOp (svc : S3Config) (st : StoreState) : Op → StoreState
  | Op.upload uuid file userId userName tags description newId s3Ok dbOk dbErr =>
    (uploadAsset svc uuid file userId userName tags description newId s3Ok dbOk dbErr st).state
  | Op.update assetId userId userName updates =>
    { st with rows := (updateAsset st.rows assetId userId userName updates).1 }
  | Op.share assetId userId userName aclOk =>
    { st with rows := (shareAsset svc st.rows assetId userId userName aclOk).1 }
  | Op.delete assetId userId userName userRole blobOk =>
    let r := deleteAsset st.rows st.blobs assetId userId userName userRole blobOk
    { blobs := r.2.1, rows := r.1 }

/-- Run a sequence of orchestrator operations from empty stores. -/
def runOps (svc : S3Config) (ops : List Op) : StoreState :=
  ops.foldl (stepOp svc) { blobs := [], rows := [] }

/-- The shared-flag invariant of the data model: a shared asset always
carries a share URL. -/
def SharedImpliesUrl (db : List Asset) : Prop :=
  ∀ a, a ∈ db → a.isShared = true → a.sharedUrl ≠ none

/-- fs.writeFile semantics for the local backend: writing under a key
replaces any blob already stored under that key. -/
def writeFile (store : List (String × List Nat)) (key : String)
    (content : List Nat) : List (String × List Nat) :=
  (key, content) :: store.filter (fun e => e.1 != key)

/-- One upload request together with the uuid that uuidv4 produced for
it during the run. -/
structure UploadReq where
  userId : String
  file : MFile
  uuid : String
deriving DecidableEq, Repr

/-- The storage key s3.service.ts uploadFile computes for a request. -/
def reqKey (r : UploadReq) : String :=
  uploadKey r.userId r.file.originalname r.uuid

/-- The storage keys handed out over a sequence of uploads. -/
def uploadKeys (reqs : List UploadReq) : List String :=
  reqs.map reqKey

/-- The object store after a sequence of uploads, starting from a
given store. -/
def runUploadStore : List UploadReq → List (String × List Nat) → List (String × List Nat)
  | [], store => store
  | r :: rest, store => runUploadStore rest (writeFile store (reqKey r) r.file.buffer)

/-- Local-mode adapter configuration used in the concrete evaluations
below (AWS credentials absent, default bucket, default port). -/
def demoSvc : S3Config :=
  { useLocalStorage := true, bucketName := "dam-assets-bucket",
    baseUrl := "http://localhost:3000", region := "us-east-1",
    presign := fun _ _ _ => "" }

/-- A concrete non-shared asset owned by user u1. -/
def demoAsset : Asset :=
  { id := "a1", filename := "photo.jpg", s3Key := "u1/photo.jpg-0000.jpg",
    bucket := "local-storage", size := 2048, mimeType := "image/jpeg",
    assetType := "image", tags := none, description := none,
    uploaderId := "u1", isShared := false, sharedUrl := none }

/-- A concrete upload payload. -/
def demoFile : MFile :=
  { originalname := "photo.jpg", mimetype := "image/jpeg",
    size := 2048, buffer := [7, 7] }

/-- A concrete operation sequence: u1 uploads a file, then shares it. -/
def demoOps : List Op :=
  [Op.upload "0000" demoFile "u1" "alice" none none "a1" true true "",
   Op.share "a1" "u1" "alice" true]

/-- The row demoOps produces: uploaded by u1 and then shared. -/
def demoSharedAsset : Asset :=
  { id := "a1", filename := "photo.jpg", s3Key := "u1/photo.jpg-0000.jpg",
    bucket := "local-storage", size := 2048, mimeType := "image/jpeg",
    assetType := "image", tags := none, description := none,
    uploaderId := "u1", isShared := true,
    sharedUrl := some "http://localhost:3000/uploads/u1/photo.jpg-0000.jpg" }

/-- Two concrete upload requests for the same owner and the same
original filename, with distinct 36-character uuids. -/
def demoReqs : List UploadReq :=
  [{ userId := "u1", file := demoFile, uuid := "aaaaaaaa-aaaa-4aaa-aaaa-aaaaaaaaaaa1" },
   { userId := "u1", file := demoFile, uuid := "aaaaaaaa-aaaa-4aaa-aaaa-aaaaaaaaaaa2" }]

/-!
Theorems settling the claims against the embedded code.
-/

/-- Claim C10: for the same asset, TTL, configuration and time, the
download-URL operation and the view-URL operation return the same
result. The adapter getSignedUrl takes only the key and the expiry, so
the filename passed by getDownloadUrl is dropped and both operations
are extensionally equal (even the recorded view activity coincides). -/
theorem downloadUrl_viewUrl_extensionally_equal :
    ∀ (svc : S3Config) (db : List Asset) (assetId userId userName : String),
      serviceGetDownloadUrl svc db assetId userId userName =
        serviceGetViewUrl svc db assetId userId userName := by
  intro svc db assetId userId userName
  unfold serviceGetDownloadUrl serviceGetViewUrl
  rfl

/-- Claim C4 (code bug evidence): at a concrete asset the download URL
carries no content-disposition information at all: it is exactly the
plain signed URL, identical to the view URL, although the source
comments state the filename is passed to set a Content-Disposition
header. -/
theorem downloadUrl_no_forced_attachment :
    serviceGetDownloadUrl demoSvc [demoAsset] "a1" "u2" "bob" =
      Except.ok ("http://localhost:3000/uploads/u1/photo.jpg-0000.jpg",
                 logViewEntry "u2" "bob" "a1" "photo.jpg") ∧
    serviceGetDownloadUrl demoSvc [demoAsset] "a1" "u2" "bob" =
      serviceGetViewUrl demoSvc [demoAsset] "a1" "u2" "bob" := by
  exact ⟨rfl, rfl⟩

/-- Claim C1 (code bug evidence): a caller with role user who does not
own the non-shared asset a1 still receives a signed download URL: the
download route checks sharing only for the viewer role and the service
method performs no authorization check, although the route documents a
Forbidden response for callers that are neither owner nor recipients
of a share. -/
theorem nonowner_user_receives_download_url :
    controllerGetDownloadUrl demoSvc [demoAsset] "a1" "u2" "bob" "user" =
      Except.ok ("http://localhost:3000/uploads/u1/photo.jpg-0000.jpg",
                 logViewEntry "u2" "bob" "a1" "photo.jpg") := by
  rfl

/-- Claim C8 (counterexample): the public shared fetch does not return
the same outcome for a non-shared asset as for a nonexistent id: the
raised NotFoundException messages differ (Asset is not shared versus
Asset not found), so the path leaks the existence of a non-shared
asset. -/
theorem sharedFetch_distinguishes_nonshared_from_missing :
    getSharedAsset demoSvc [demoAsset] "a1" =
      Except.error (AppError.notFound "Asset is not shared") ∧
    getSharedAsset demoSvc [demoAsset] "zz" =
      Except.error (AppError.notFound "Asset not found") ∧
    getSharedAsset demoSvc [demoAsset] "a1" ≠ getSharedAsset demoSvc [demoAsset] "zz" := by
  refine ⟨rfl, rfl, ?_⟩
  decide

/-- Claim C8 (amended): the public shared fetch takes no identity and
returns the asset together with a signed URL exactly when the asset
exists and is shared; otherwise it raises a not-found error, though
with a message that distinguishes a non-shared asset from a missing
one. -/
theorem sharedFetch_ok_iff_shared :
    ∀ (svc : S3Config) (db : List Asset) (assetId : String),
      match db.find? (fun a => a.id == assetId) with
      | some a =>
          if a.isShared = true then
            getSharedAsset svc db assetId =
              Except.ok (a, getSignedUrl svc a.s3Key 3600)
          else
            getSharedAsset svc db assetId =
              Except.error (AppError.notFound "Asset is not shared")
      | none =>
          getSharedAsset svc db assetId =
            Except.error (AppError.notFound "Asset not found") := by
  intro svc db assetId
  unfold getSharedAsset getAssetById
  cases h : db.find? (fun a => a.id == assetId) with
  | none => simp
  | some a => cases ha : a.isShared <;> simp [ha]

/-- Claim C2 (counterexample): when the blob upload succeeds and the
metadata save then fails, uploadAsset issues no compensating
object-store delete: the catch block only logs and rethrows, the
written blob stays in the store and no deleteFile call is made. -/
theorem upload_no_compensating_delete :
    (uploadAsset demoSvc "0000" demoFile "u1" "alice" none none "a1" true false
        "db down" { blobs := [], rows := [] }).blobDeletes = [] ∧
    (uploadAsset demoSvc "0000" demoFile "u1" "alice" none none "a1" true false
        "db down" { blobs := [], rows := [] }).state.blobs =
      [uploadKey "u1" "photo.jpg" "0000"] ∧
    (uploadAsset demoSvc "0000" demoFile "u1" "alice" none none "a1" true false
        "db down" { blobs := [], rows := [] }).state.rows = [] ∧
    (uploadAsset demoSvc "0000" demoFile "u1" "alice" none none "a1" true false
        "db down" { blobs := [], rows := [] }).result =
      Except.error (AppError.internalServerError "Failed to upload file: db down") := by
  exact ⟨rfl, rfl, rfl, rfl⟩

/-- Claim C2 (amended): if the blob upload fails, neither a metadata
row nor a blob is created and the failure surfaces; if the metadata
save fails after a successful blob upload, the failure surfaces and no
metadata row is created, but the already-written blob remains in the
store and no compensating delete is attempted. -/
theorem upload_failure_effects :
    ∀ (svc : S3Config) (uuid : String) (file : MFile)
      (userId userName : String) (tags description : Option String)
      (newId : String) (dbOk : Bool) (dbErr : String) (st : StoreState),
      ((uploadAsset svc uuid file userId userName tags description newId
          false dbOk dbErr st).state = st ∧
       (uploadAsset svc uuid file userId userName tags description newId
          false dbOk dbErr st).result =
         Except.error (AppError.internalServerError
           "Failed to upload file: Failed to upload file")) ∧
      ((uploadAsset svc uuid file userId userName tags description newId
          true false dbErr st).state.rows = st.rows ∧
       uploadKey userId file.originalname uuid ∈
         (uploadAsset svc uuid file userId userName tags description newId
           true false dbErr st).state.blobs ∧
       (uploadAsset svc uuid file userId userName tags description newId
          true false dbErr st).blobDeletes = [] ∧
       (uploadAsset svc uuid file userId userName tags description newId
          true false dbErr st).result =
         Except.error (AppError.internalServerError
           ("Failed to upload file: " ++ dbErr))) := by
  intro svc uuid file userId userName tags description newId dbOk dbErr st
  refine ⟨⟨rfl, rfl⟩, rfl, ?_, rfl, rfl⟩
  simp [uploadAsset]

/-- A row whose primary key differs from the saved one is untouched by
repository.save. -/
theorem mem_saveRow_of_ne (db : List Asset) (a b : Asset) (h : b ∈ db)
    (hne : b.id ≠ a.id) : b ∈ saveRow db a := by
  unfold saveRow
  have himg : (if (b.id == a.id) = true then a else b) = b := by
    simp [beq_false_of_ne hne]
  rw [← himg]
  exact List.mem_map_of_mem _ h

/-- Claim C5: metadata update is owner-only with no role override (the
service method is not even given the caller role) and partial: for a
non-owner the call returns Forbidden and the table is unchanged; for
the owner exactly the supplied fields among tags and description are
set and every other field of the row, and every other row, is left
untouched. -/
theorem updateAsset_owner_only_fields :
    ∀ (db : List Asset) (assetId userId userName : String)
      (updates : UpdatePayload) (asset : Asset),
      getAssetById db assetId = Except.ok asset →
      ((asset.uploaderId ≠ userId →
          updateAsset db assetId userId userName updates =
            (db, Except.error (AppError.forbidden
              "You do not have permission to update this asset"))) ∧
       (asset.uploaderId = userId →
          ∃ asset2,
            updateAsset db assetId userId userName updates =
              (saveRow db asset2, Except.ok asset2) ∧
            asset2.tags = (match updates.tags with
                           | some t => some t
                           | none => asset.tags) ∧
            asset2.description = (match updates.description with
                                  | some d => some d
                                  | none => asset.description) ∧
            asset2.id = asset.id ∧ asset2.filename = asset.filename ∧
            asset2.s3Key = asset.s3Key ∧ asset2.bucket = asset.bucket ∧
            asset2.size = asset.size ∧ asset2.mimeType = asset.mimeType ∧
            asset2.assetType = asset.assetType ∧
            asset2.uploaderId = asset.uploaderId ∧
            asset2.isShared = asset.isShared ∧
            asset2.sharedUrl = asset.sharedUrl ∧
            (∀ b, b ∈ db → b.id ≠ assetId →
              b ∈ (updateAsset db assetId userId userName updates).1))) := by
  intro db assetId userId userName updates asset hfind
  have hid : asset.id = assetId := by
    unfold getAssetById at hfind
    cases h : db.find? (fun a => a.id == assetId) with
    | none => rw [h] at hfind; cases hfind
    | some a =>
      rw [h] at hfind
      cases hfind
      have := List.find?_some h
      simpa using this
  constructor
  · intro hne
    unfold updateAsset
    rw [hfind]
    simp [hne]
  · intro heq
    have hcond : (asset.uploaderId != userId) = false := by simp [heq]
    have heqn : updateAsset db assetId userId userName updates =
        (saveRow db { asset with
                      tags := (match updates.tags with
                               | some t => some t
                               | none => asset.tags),
                      description := (match updates.description with
                                      | some d => some d
                                      | none => asset.description) },
         Except.ok { asset with
                     tags := (match updates.tags with
                              | some t => some t
                              | none => asset.tags),
                     description := (match updates.description with
                                     | some d => some d
                                     | none => asset.description) }) := by
      unfold updateAsset
      rw [hfind]
      simp [hcond]
    refine ⟨_, heqn, rfl, rfl, rfl, rfl, rfl, rfl, rfl, rfl, rfl, rfl, rfl, rfl, ?_⟩
    intro b hb hbne
    rw [heqn]
    apply mem_saveRow_of_ne db _ b hb
    show b.id ≠ asset.id
    rw [hid]
    exact hbne

/-- Witness for claim C5: a concrete non-owner caller is refused and
the table is unchanged. -/
theorem updateAsset_owner_only_fields_witness :
    updateAsset [demoAsset] "a1" "u2" "bob"
        { tags := some "x", description := none } =
      ([demoAsset], Except.error (AppError.forbidden
        "You do not have permission to update this asset")) :=
  (updateAsset_owner_only_fields [demoAsset] "a1" "u2" "bob"
      { tags := some "x", description := none } demoAsset (by decide)).1 (by decide)

/-- Claim C3: in the non-cascade delete, the metadata row is removed
only when the object-store delete has been attempted and succeeded: a
failing blob delete leaves both stores unchanged and surfaces the
storage failure to an authorized caller, and any change to the
metadata table implies the blob delete succeeded and the call
returned successfully. -/
theorem delete_blob_precedes_metadata :
    ∀ (db : List Asset) (blobs : List String) (assetId userId userName : String)
      (userRole : Option String) (blobOk : Bool),
      (blobOk = false →
        (deleteAsset db blobs assetId userId userName userRole blobOk).1 = db ∧
        (deleteAsset db blobs assetId userId userName userRole blobOk).2.1 = blobs) ∧
      (∀ asset, getAssetById db assetId = Except.ok asset →
        (asset.uploaderId = userId ∨ userRole = some "admin") →
        blobOk = false →
        deleteAsset db blobs assetId userId userName userRole blobOk =
          (db, blobs,
           Except.error (AppError.internalServerError "Failed to delete file"))) ∧
      ((deleteAsset db blobs assetId userId userName userRole blobOk).1 ≠ db →
        blobOk = true ∧
        (deleteAsset db blobs assetId userId userName userRole blobOk).2.2 =
          Except.ok ()) := by
  intro db blobs assetId userId userName userRole blobOk
  rcases hf : getAssetById db assetId with e | asset
  · refine ⟨fun _ => ?_, fun asset hok => ?_, fun hne => ?_⟩
    · simp [deleteAsset, hf]
    · cases hok
    · exfalso; apply hne; simp [deleteAsset, hf]
  · by_cases hc : (asset.uploaderId != userId && userRole != some "admin") = true
    · refine ⟨fun _ => ?_, fun asset2 hok hauth _ => ?_, fun hne => ?_⟩
      · simp [deleteAsset, hf, hc]
      · cases hok
        simp only [Bool.and_eq_true, bne_iff_ne, ne_eq] at hc
        rcases hauth with h | h
        · exact absurd h hc.1
        · exact absurd h hc.2
      · exfalso; apply hne; simp [deleteAsset, hf, hc]
    · have hcf : (asset.uploaderId != userId && userRole != some "admin") = false := by
        exact Bool.not_eq_true _ ▸ Bool.of_not_eq_true hc
      by_cases hb : blobOk = false
      · refine ⟨fun _ => ?_, fun asset2 hok hauth _ => ?_, fun hne => ?_⟩
        · simp [deleteAsset, hf, hcf, hb]
        · cases hok
          simp [deleteAsset, hf, hcf, hb]
        · exfalso; apply hne; simp [deleteAsset, hf, hcf, hb]
      · refine ⟨fun h => absurd h hb, fun asset2 hok hauth hbf => absurd hbf hb,
                fun hne => ⟨by revert hb; cases blobOk <;> simp, ?_⟩⟩
        simp [deleteAsset, hf, hcf, hb]

/-- Witness for claim C3: a concrete owner delete whose blob removal
fails leaves both stores unchanged and surfaces the storage failure. -/
theorem delete_blob_precedes_metadata_witness :
    deleteAsset [demoAsset] ["u1/photo.jpg-0000.jpg"] "a1" "u1" "alice"
        (some "user") false =
      ([demoAsset], ["u1/photo.jpg-0000.jpg"],
       Except.error (AppError.internalServerError "Failed to delete file")) :=
  ((delete_blob_precedes_metadata [demoAsset] ["u1/photo.jpg-0000.jpg"] "a1" "u1"
      "alice" (some "user") false).2.1) demoAsset (by decide) (Or.inl (by decide)) rfl

/-- Every row of a table produced by repository.save comes from the
old table: it is either the saved row or an untouched old row. -/
theorem mem_saveRow_cases (db : List Asset) (a b : Asset)
    (h : b ∈ saveRow db a) : b = a ∨ b ∈ db := by
  unfold saveRow at h
  rcases List.mem_map.1 h with ⟨c, hc, hcb⟩
  by_cases hid : (c.id == a.id) = true
  · left; rw [← hcb]; simp [hid]
  · right
    have : (if (c.id == a.id) = true then a else c) = c := by
      simp [hid]
    rw [← hcb, this]
    exact hc

/-- One orchestrator operation preserves the shared-flag invariant. -/
theorem stepOp_preserves_sharedImpliesUrl (svc : S3Config) (st : StoreState)
    (op : Op) (h : SharedImpliesUrl st.rows) :
    SharedImpliesUrl (stepOp svc st op).rows := by
  cases op with
  | upload uuid file userId userName tags description newId s3Ok dbOk dbErr =>
    intro a ha hsh
    simp only [stepOp, uploadAsset] at ha
    by_cases h3 : s3Ok = false
    · simp only [h3, if_true] at ha
      exact h a ha hsh
    · simp only [h3, if_false] at ha
      by_cases h4 : dbOk = false
      · simp only [h4, if_true] at ha
        exact h a ha hsh
      · simp only [h4, if_false] at ha
        rcases List.mem_cons.1 ha with rfl | ha2
        · cases hsh
        · exact h a ha2 hsh
  | update assetId userId userName updates =>
    intro a ha hsh
    simp only [stepOp, updateAsset] at ha
    rcases hf : getAssetById st.rows assetId with e | asset
    · rw [hf] at ha
      exact h a ha hsh
    · rw [hf] at ha
      by_cases hc : (asset.uploaderId != userId) = true
      · simp only [hc, if_true] at ha
        exact h a ha hsh
      · simp only [hc, if_false] at ha
        have hmem : asset ∈ st.rows := by
          unfold getAssetById at hf
          rcases hff : st.rows.find? (fun a => a.id == assetId) with _ | b
          · rw [hff] at hf; cases hf
          · rw [hff] at hf
            cases hf
            exact List.mem_of_find?_eq_some hff
        rcases mem_saveRow_cases _ _ _ ha with rfl | ha2
        · have : asset.isShared = true := hsh
          have := h asset hmem this
          exact this
        · exact h a ha2 hsh
  | share assetId userId userName aclOk =>
    intro a ha hsh
    simp only [stepOp, shareAsset] at ha
    rcases hf : getAssetById st.rows assetId with e | asset
    · rw [hf] at ha
      exact h a ha hsh
    · rw [hf] at ha
      by_cases hc : (asset.uploaderId != userId) = true
      · simp only [hc, if_true] at ha
        exact h a ha hsh
      · simp only [hc, if_false] at ha
        by_cases hacl : aclOk = false
        · simp only [hacl, if_true] at ha
          exact h a ha hsh
        · simp only [hacl, if_false] at ha
          rcases mem_saveRow_cases _ _ _ ha with rfl | ha2
          · simp
          · exact h a ha2 hsh
  | delete assetId userId userName userRole blobOk =>
    intro a ha hsh
    simp only [stepOp, deleteAsset] at ha
    rcases hf : getAssetById st.rows assetId with e | asset
    · rw [hf] at ha
      exact h a ha hsh
    · rw [hf] at ha
      by_cases hc : (asset.uploaderId != userId && userRole != some "admin") = true
      · simp only [hc, if_true] at ha
        exact h a ha hsh
      · simp only [hc, if_false] at ha
        by_cases hb : blobOk = false
        · simp only [hb, if_true] at ha
          exact h a ha hsh
        · simp only [hb, if_false] at ha
          exact h a (List.mem_of_mem_filter ha) hsh

/-- Claim C7: every metadata state reachable from empty stores through
the orchestrator operations satisfies the invariant that a shared
asset carries a non-null share URL: upload inserts rows with isShared
false, share sets isShared true together with the public URL, update
rewrites only tags and description, delete only removes rows. -/
theorem runOps_sharedImpliesUrl :
    ∀ (svc : S3Config) (ops : List Op), SharedImpliesUrl (runOps svc ops).rows := by
  intro svc ops
  have hgen : ∀ (l : List Op) (st : StoreState), SharedImpliesUrl st.rows →
      SharedImpliesUrl (l.foldl (stepOp svc) st).rows := by
    intro l
    induction l with
    | nil => intro st h; exact h
    | cons op rest ih =>
      intro st h
      exact ih _ (stepOp_preserves_sharedImpliesUrl svc st op h)
  exact hgen ops { blobs := [], rows := [] } (by intro a ha; cases ha)

/-- Witness for claim C7: after a concrete upload-then-share run the
shared row indeed carries a URL. -/
theorem runOps_sharedImpliesUrl_witness : demoSharedAsset.sharedUrl ≠ none :=
  runOps_sharedImpliesUrl demoSvc demoOps demoSharedAsset (by decide) (by decide)

/-- A 2xx response ends the retry loop at once. -/
theorem sendWithRetryFrom_success (o : Nat → Bool) (mr a : Nat)
    (h : a < mr) (ho : o a = true) :
    sendWithRetryFrom o mr a = { delays := [], delivered := true, attempts := 1 } := by
  rw [sendWithRetryFrom.eq_def]
  simp [h, ho]

/-- A failure of the last allowed attempt ends the loop silently. -/
theorem sendWithRetryFrom_last_fail (o : Nat → Bool) (mr a : Nat)
    (h : a < mr) (ho : o a = false) (hl : a = mr - 1) :
    sendWithRetryFrom o mr a = { delays := [], delivered := false, attempts := 1 } := by
  subst hl
  have h1 : mr - 1 < mr := by omega
  rw [sendWithRetryFrom.eq_def]
  simp [h1, ho]

/-- A failure of a non-final attempt sleeps 2 ^ attempt seconds and
retries. -/
theorem sendWithRetryFrom_fail (o : Nat → Bool) (mr a : Nat)
    (h : a < mr) (ho : o a = false) (hl : a ≠ mr - 1) :
    sendWithRetryFrom o mr a =
      { delays := 2 ^ a * 1000 :: (sendWithRetryFrom o mr (a + 1)).delays,
        delivered := (sendWithRetryFrom o mr (a + 1)).delivered,
        attempts := (sendWithRetryFrom o mr (a + 1)).attempts + 1 } := by
  conv_lhs => rw [sendWithRetryFrom.eq_def]
  simp [h, ho, hl]

/-- The loop makes at most mr - a POST attempts. -/
theorem sendWithRetryFrom_attempts_le (o : Nat → Bool) :
    ∀ (n mr a : Nat), mr - a ≤ n →
      (sendWithRetryFrom o mr a).attempts ≤ mr - a := by
  intro n
  induction n with
  | zero =>
    intro mr a h
    have ha : ¬ a < mr := by omega
    rw [sendWithRetryFrom.eq_def]
    simp [ha]
  | succ n ih =>
    intro mr a h
    by_cases h1 : a < mr
    · by_cases h2 : o a = true
      · rw [sendWithRetryFrom_success o mr a h1 h2]
        show 1 ≤ mr - a
        omega
      · have h2f : o a = false := by
          revert h2; cases o a <;> simp
        by_cases h3 : a = mr - 1
        · rw [sendWithRetryFrom_last_fail o mr a h1 h2f h3]
          show 1 ≤ mr - a
          omega
        · rw [sendWithRetryFrom_fail o mr a h1 h2f h3]
          have := ih mr (a + 1) (by omega)
          simp only []
          omega
    · rw [sendWithRetryFrom.eq_def]
      simp [h1]

/-- Claim C6: per destination, sendWithRetry makes at most 5 POST
attempts; when every attempt fails it sleeps exactly 1, 2, 4 and 8
seconds between the 5 attempts and then returns normally without
raising; when attempt k (counted from 0) is the first 2xx response,
the loop ends at once after sleeps of 2 ^ 0, ..., 2 ^ (k-1) seconds
with no further delay. -/
theorem sendWithRetry_backoff (outcomes : Nat → Bool) :
    (sendWithRetry outcomes).attempts ≤ 5 ∧
    ((∀ i, i < 5 → outcomes i = false) →
      sendWithRetry outcomes =
        { delays := [1000, 2000, 4000, 8000], delivered := false, attempts := 5 }) ∧
    (∀ k, k < 5 → (∀ i, i < k → outcomes i = false) → outcomes k = true →
      sendWithRetry outcomes =
        { delays := (List.range k).map (fun i => 2 ^ i * 1000),
          delivered := true, attempts := k + 1 }) := by
  refine ⟨?_, ?_, ?_⟩
  · have := sendWithRetryFrom_attempts_le outcomes 5 5 0 (by omega)
    simpa [sendWithRetry] using this
  · intro hf
    have e4 := sendWithRetryFrom_last_fail outcomes 5 4 (by omega)
      (hf 4 (by omega)) (by omega)
    have e3 := sendWithRetryFrom_fail outcomes 5 3 (by omega)
      (hf 3 (by omega)) (by omega)
    have e2 := sendWithRetryFrom_fail outcomes 5 2 (by omega)
      (hf 2 (by omega)) (by omega)
    have e1 := sendWithRetryFrom_fail outcomes 5 1 (by omega)
      (hf 1 (by omega)) (by omega)
    have e0 := sendWithRetryFrom_fail outcomes 5 0 (by omega)
      (hf 0 (by omega)) (by omega)
    rw [sendWithRetry, e0, e1, e2, e3, e4]
    norm_num
  · intro k hk hbefore hk2
    interval_cases k
    · have e0 := sendWithRetryFrom_success outcomes 5 0 (by omega) hk2
      rw [sendWithRetry, e0]
      simp
    · have e1 := sendWithRetryFrom_success outcomes 5 1 (by omega) hk2
      have e0 := sendWithRetryFrom_fail outcomes 5 0 (by omega)
        (hbefore 0 (by omega)) (by omega)
      rw [sendWithRetry, e0, e1]
      simp [List.range_succ]
    · have e2 := sendWithRetryFrom_success outcomes 5 2 (by omega) hk2
      have e1 := sendWithRetryFrom_fail outcomes 5 1 (by omega)
        (hbefore 1 (by omega)) (by omega)
      have e0 := sendWithRetryFrom_fail outcomes 5 0 (by omega)
        (hbefore 0 (by omega)) (by omega)
      rw [sendWithRetry, e0, e1, e2]
      simp [List.range_succ]
    · have e3 := sendWithRetryFrom_success outcomes 5 3 (by omega) hk2
      have e2 := sendWithRetryFrom_fail outcomes 5 2 (by omega)
        (hbefore 2 (by omega)) (by omega)
      have e1 := sendWithRetryFrom_fail outcomes 5 1 (by omega)
        (hbefore 1 (by omega)) (by omega)
      have e0 := sendWithRetryFrom_fail outcomes 5 0 (by omega)
        (hbefore 0 (by omega)) (by omega)
      rw [sendWithRetry, e0, e1, e2, e3]
      simp [List.range_succ]
    · have e4 := sendWithRetryFrom_success outcomes 5 4 (by omega) hk2
      have e3 := sendWithRetryFrom_fail outcomes 5 3 (by omega)
        (hbefore 3 (by omega)) (by omega)
      have e2 := sendWithRetryFrom_fail outcomes 5 2 (by omega)
        (hbefore 2 (by omega)) (by omega)
      have e1 := sendWithRetryFrom_fail outcomes 5 1 (by omega)
        (hbefore 1 (by omega)) (by omega)
      have e0 := sendWithRetryFrom_fail outcomes 5 0 (by omega)
        (hbefore 0 (by omega)) (by omega)
      rw [sendWithRetry, e0, e1, e2, e3, e4]
      simp [List.range_succ]

/-- Witness for claim C6: a destination that fails the first four
attempts and answers 2xx on the fifth sees exactly the delays 1s, 2s,
4s, 8s and delivery succeeds with five attempts. -/
theorem sendWithRetry_backoff_witness :
    sendWithRetry (fun i => i == 4) =
      { delays := [1000, 2000, 4000, 8000], delivered := true, attempts := 5 } := by
  have h := (sendWithRetry_backoff (fun i => i == 4)).2.2 4 (by omega)
    (by decide) (by decide)
  rw [h]
  decide

/-- splitOnChar never returns an empty component list. -/
theorem splitOnChar_ne_nil (c : Char) (l : List Char) : splitOnChar c l ≠ [] := by
  induction l with
  | nil => simp [splitOnChar]
  | cons x xs ih =>
    simp only [splitOnChar]
    rcases h : splitOnChar c xs with _ | ⟨h1, t⟩
    · simp
    · by_cases hx : x = c <;> simp [hx]

/-- No component produced by splitOnChar contains the separator. -/
theorem not_mem_splitOnChar (c : Char) :
    ∀ (l : List Char) (p : List Char), p ∈ splitOnChar c l → c ∉ p := by
  intro l
  induction l with
  | nil =>
    intro p hp
    simp only [splitOnChar, List.mem_singleton] at hp
    simp [hp]
  | cons x xs ih =>
    intro p hp
    simp only [splitOnChar] at hp
    rcases h : splitOnChar c xs with _ | ⟨h1, t⟩
    · exact absurd h (splitOnChar_ne_nil c xs)
    · simp only [h] at hp
      by_cases hx : x = c
      · simp only [hx, if_pos rfl] at hp
        rcases List.mem_cons.1 hp with rfl | hp2
        · simp
        · exact ih p (h ▸ hp2)
      · rw [if_neg hx] at hp
        rcases List.mem_cons.1 hp with rfl | hp2
        · intro hmem
          rcases List.mem_cons.1 hmem with rfl | hmem2
          · exact hx rfl
          · exact ih h1 (h ▸ List.mem_cons_self h1 t) hmem2
        · exact ih p (h ▸ List.mem_cons_of_mem h1 hp2)

/-- getLastD of a nonempty list is one of its elements. -/
theorem getLastD_mem {α : Type} :
    ∀ (l : List α) (d : α), l ≠ [] → l.getLastD d ∈ l := by
  intro l
  induction l with
  | nil => intro d h; exact absurd rfl h
  | cons x xs ih =>
    intro d _
    cases xs with
    | nil => simp [List.getLastD]
    | cons y ys =>
      have h2 : (x :: y :: ys).getLastD d = (y :: ys).getLastD x := rfl
      rw [h2]
      exact List.mem_cons_of_mem x (ih x (by simp))

/-- The extension extracted from a filename contains no dot. -/
theorem fileExtChars_no_dot (name : List Char) : '.' ∉ fileExtChars name :=
  not_mem_splitOnChar '.' name (fileExtChars name)
    (getLastD_mem (splitOnChar '.' name) [] (splitOnChar_ne_nil '.' name))

/-- Splitting at the first occurrence of a separator is unambiguous. -/
theorem eq_of_append_sep {c : Char} :
    ∀ (a1 a2 b1 b2 : List Char),
      a1 ++ c :: b1 = a2 ++ c :: b2 → c ∉ a1 → c ∉ a2 → a1 = a2 ∧ b1 = b2 := by
  intro a1
  induction a1 with
  | nil =>
    intro a2 b1 b2 h h1 h2
    cases a2 with
    | nil => simpa using h
    | cons y ys =>
      simp only [List.nil_append, List.cons_append, List.cons.injEq] at h
      exact absurd (h.1 ▸ List.mem_cons_self y ys) (h.1 ▸ h2)
  | cons x xs ih =>
    intro a2 b1 b2 h h1 h2
    cases a2 with
    | nil =>
      simp only [List.nil_append, List.cons_append, List.cons.injEq] at h
      exact absurd (h.1 ▸ List.mem_cons_self x xs)
        (fun hh => h1 (h.1 ▸ List.mem_cons_self x xs))
    | cons y ys =>
      simp only [List.cons_append, List.cons.injEq] at h
      obtain ⟨rfl, h⟩ := h
      have hx1 : c ∉ xs := fun hh => h1 (List.mem_cons_of_mem x hh)
      have hy2 : c ∉ ys := fun hh => h2 (List.mem_cons_of_mem x hh)
      obtain ⟨rfl, rfl⟩ := ih ys b1 b2 h hx1 hy2
      exact ⟨rfl, rfl⟩

/-- Reversed shape of a storage key: the dot before the extension is
the last dot of the key. -/
theorem uploadKeyChars_reverse (u n i : List Char) :
    (uploadKeyChars u n i).reverse =
      (fileExtChars n).reverse ++ '.' ::
        (i.reverse ++ '-' :: ((sanitizeChars n).reverse ++ '/' :: u.reverse)) := by
  simp [uploadKeyChars, List.reverse_append, List.append_assoc]

/-- Two storage keys built with equal-length uuids can only coincide
when the uuids coincide. -/
theorem uploadKeyChars_uuid_inj (u1 n1 i1 u2 n2 i2 : List Char)
    (hlen : i1.length = i2.length)
    (h : uploadKeyChars u1 n1 i1 = uploadKeyChars u2 n2 i2) : i1 = i2 := by
  have hrev : (uploadKeyChars u1 n1 i1).reverse =
      (uploadKeyChars u2 n2 i2).reverse := by rw [h]
  rw [uploadKeyChars_reverse, uploadKeyChars_reverse] at hrev
  have hd1 : '.' ∉ (fileExtChars n1).reverse := by
    intro hh; exact fileExtChars_no_dot n1 (List.mem_reverse.1 hh)
  have hd2 : '.' ∉ (fileExtChars n2).reverse := by
    intro hh; exact fileExtChars_no_dot n2 (List.mem_reverse.1 hh)
  obtain ⟨-, htail⟩ := eq_of_append_sep _ _ _ _ hrev hd1 hd2
  have hlenr : i1.reverse.length = i2.reverse.length := by simpa using hlen
  obtain ⟨hi, -⟩ := List.append_inj htail hlenr
  exact List.reverse_injective hi

/-- String form of the uuid injectivity of storage keys. -/
theorem uploadKey_uuid_inj (u1 n1 i1 u2 n2 i2 : String)
    (hlen : i1.length = i2.length)
    (h : uploadKey u1 n1 i1 = uploadKey u2 n2 i2) : i1 = i2 := by
  have hdata : uploadKeyChars u1.data n1.data i1.data =
      uploadKeyChars u2.data n2.data i2.data := by
    have h2 := congrArg String.data h
    simpa [uploadKey] using h2
  have h3 : i1.data = i2.data :=
    uploadKeyChars_uuid_inj _ _ _ _ _ _ hlen hdata
  cases i1; cases i2; exact congrArg String.mk h3

/-- Requests with distinct 36-character uuids receive distinct keys. -/
theorem reqKey_uuid_eq (r1 r2 : UploadReq) (h1 : r1.uuid.length = 36)
    (h2 : r2.uuid.length = 36) (h : reqKey r1 = reqKey r2) :
    r1.uuid = r2.uuid :=
  uploadKey_uuid_inj _ _ _ _ _ _ (by rw [h1, h2]) h

/-- The keys of an upload sequence with fresh uuids are pairwise
distinct. -/
theorem uploadKeys_nodup (reqs : List UploadReq)
    (hfresh : (reqs.map (fun r => r.uuid)).Nodup)
    (hlen : ∀ r ∈ reqs, r.uuid.length = 36) :
    (uploadKeys reqs).Nodup := by
  induction reqs with
  | nil => simp [uploadKeys]
  | cons r rest ih =>
    simp only [List.map_cons, List.nodup_cons] at hfresh
    simp only [uploadKeys, List.map_cons, List.nodup_cons]
    constructor
    · intro hmem
      rcases List.mem_map.1 hmem with ⟨r2, hr2, hkey⟩
      have huid := reqKey_uuid_eq r2 r
        (hlen r2 (List.mem_cons_of_mem r hr2))
        (hlen r (List.mem_cons_self r rest)) hkey
      exact hfresh.1 (huid ▸ List.mem_map_of_mem _ hr2)
    · exact ih hfresh.2 (fun r2 hr2 => hlen r2 (List.mem_cons_of_mem r hr2))

/-- With pairwise distinct keys, every write lands on a fresh key: the
store keeps one entry per upload and no existing blob is replaced. -/
theorem runUploadStore_fresh :
    ∀ (reqs : List UploadReq) (store : List (String × List Nat)),
      (uploadKeys reqs).Nodup →
      (∀ e ∈ store, e.1 ∉ uploadKeys reqs) →
      (runUploadStore reqs store).map Prod.fst =
        (uploadKeys reqs).reverse ++ store.map Prod.fst := by
  intro reqs
  induction reqs with
  | nil => intro store hnd h; simp [runUploadStore, uploadKeys]
  | cons r rest ih =>
    intro store hnd h
    simp only [uploadKeys, List.map_cons, List.nodup_cons] at hnd
    have hfilter : store.filter (fun e => e.1 != reqKey r) = store := by
      apply List.filter_eq_self.2
      intro e he
      have hne : e.1 ≠ reqKey r := by
        intro hh
        exact (h e he) (hh ▸ List.mem_cons_self (reqKey r) (uploadKeys rest))
      simpa using hne
    have hw : writeFile store (reqKey r) r.file.buffer =
        (reqKey r, r.file.buffer) :: store := by
      simp [writeFile, hfilter]
    have hnext : ∀ e ∈ (reqKey r, r.file.buffer) :: store,
        e.1 ∉ uploadKeys rest := by
      intro e he
      rcases List.mem_cons.1 he with rfl | he2
      · exact hnd.1
      · intro hh
        exact (h e he2) (List.mem_cons_of_mem _ hh)
    have := ih ((reqKey r, r.file.buffer) :: store) hnd.2 hnext
    simp only [runUploadStore, hw, this, List.map_cons]
    simp [uploadKeys, List.reverse_cons, List.append_assoc]

/-- Claim C9: over any sequence of uploads whose uuidv4 draws are
pairwise distinct 36-character strings, no two uploads receive the
same storage key, even for identical owners and identical original
filenames, and no write replaces an existing blob: the final store
holds exactly one entry per upload. -/
theorem storage_keys_unique (reqs : List UploadReq)
    (hfresh : (reqs.map (fun r => r.uuid)).Nodup)
    (hlen : ∀ r ∈ reqs, r.uuid.length = 36) :
    (uploadKeys reqs).Nodup ∧
    (runUploadStore reqs []).map Prod.fst = (uploadKeys reqs).reverse := by
  have hnd := uploadKeys_nodup reqs hfresh hlen
  refine ⟨hnd, ?_⟩
  have h := runUploadStore_fresh reqs [] hnd (by intro e he; cases he)
  simpa using h

/-- Witness for claim C9: two uploads by the same owner of files with
the same original name, with distinct uuids, receive distinct keys and
both blobs are retained. -/
theorem storage_keys_unique_witness :
    (uploadKeys demoReqs).Nodup ∧
    (runUploadStore demoReqs []).map Prod.fst = (uploadKeys demoReqs).reverse :=
  storage_keys_unique demoReqs (by decide) (by decide)
